import Mathlib

/-!
Verification development for the random-wallpaper browser extension's content
cache and fetch pipeline.  The TypeScript sources are shallowly embedded:
IndexedDB stores become lists kept in index order (the `expiresAt` /
`viewedAt` secondary indexes are sorted), asynchronous operations become pure
functions over explicit environment records, and `Date.now()` / random draws
become parameters.  Machine integers are modelled as `Nat` / `Int` (the
timestamps and counters involved stay far below 2^53, where JavaScript
numbers are exact integers).
-/

namespace WallpaperExt

/-- Provider tag of a cached item (`source` field in the TypeScript code). -/
inductive Source
  | unsplash
  | pexels
  | other
deriving DecidableEq, Repr

/-- Embedding of the `ImageData` record from `src/config` (`db` module).  The
binary `blob` payload is modelled as an opaque natural number. -/
structure ImageData where
  id : String
  url : String
  payload : ℕ
  source : Source
  downloadUrl : String
  author : String
  authorUrl : String
  timestamp : ℕ
  expiresAt : ℕ
deriving DecidableEq, Repr

/-- A store list is in `expiresAt`-index order: IndexedDB keeps the secondary
index sorted by key, so cursors over the index see ascending `expiresAt`. -/
def SortedByExpiry (store : List ImageData) : Prop :=
  store.Pairwise (fun a b => a.expiresAt ≤ b.expiresAt)

instance (store : List ImageData) : Decidable (SortedByExpiry store) := by
  unfold SortedByExpiry
  infer_instance

/-- Entries seen by a cursor over `IDBKeyRange.lowerBound(now)` on the
`expiresAt` index: on the index-ordered list this drops the strict prefix of
entries with key below `now` (the bound is inclusive). -/
def validRange (store : List ImageData) (now : ℕ) : List ImageData :=
  store.dropWhile (fun img => img.expiresAt < now)

/-- Result of `index.count(IDBKeyRange.lowerBound(now))`. -/
def validCount (store : List ImageData) (now : ℕ) : ℕ :=
  (validRange store now).length

/-- Cursor walk of `_getRandomImageWithDB`: advance `cursor.continue()` until
the running counter reaches the drawn index, then return the cursor value;
`none` models the cursor ending before the draw is reached. -/
def cursorWalk : List ImageData → ℕ → Option ImageData
  | [], _ => none
  | img :: _, 0 => some img
  | _ :: rest, n + 1 => cursorWalk rest n

/-- Embedding of `_getRandomImageWithDB` (`src/db/index.ts`): count the items
in the inclusive range `[now, ∞)` of the `expiresAt` index, resolve `null`
when the count is zero, otherwise stream the range cursor until the drawn
index `draw` (supplied by `getRandomIndex count`) is reached. -/
def getRandomImageWithDB (store : List ImageData) (now draw : ℕ) :
    Option ImageData :=
  if validCount store now = 0 then none
  else cursorWalk (validRange store now) draw

/-- Embedding of the `getRandomImage` wrapper (`src/db/index.ts`): draw an
image, and while it was viewed recently (per `wasImageViewedRecently`) redraw,
up to the `attempts` budget (`attempts = 3`, checked with `attempts >= 0`, so
four loop iterations after the initial draw); a `null` draw returns `null`
immediately, and after the budget the last draw is returned as-is.
`draws k` is the value of `getRandomIndex` at the k-th call. -/
def getRandomImageGo (store : List ImageData) (now : ℕ) (draws : ℕ → ℕ)
    (viewed : ImageData → Bool) :
    ℕ → ℕ → Option ImageData → Option ImageData
  | 0, _, img => img
  | _ + 1, _, none => none
  | fuel + 1, callIdx, some img =>
    if viewed img then
      getRandomImageGo store now draws viewed fuel (callIdx + 1)
        (getRandomImageWithDB store now (draws callIdx))
    else some img

/-- Embedding of `getRandomImage` (`src/db/index.ts`). -/
def getRandomImage (store : List ImageData) (now : ℕ) (draws : ℕ → ℕ)
    (viewed : ImageData → Bool) : Option ImageData :=
  getRandomImageGo store now draws viewed 4 1
    (getRandomImageWithDB store now (draws 0))

/-- Embedding of `cleanExpiredImages` (`src/db/index.ts`): a cursor over
`IDBKeyRange.upperBound(now)` on the `expiresAt` index visits the entries
with key at most `now` (a prefix of the index-ordered list) and deletes each
one, counting deletions; entries beyond the range are untouched. -/
def cleanExpiredImages : List ImageData → ℕ → List ImageData × ℕ
  | [], _ => ([], 0)
  | img :: rest, now =>
    if img.expiresAt ≤ now then
      let r := cleanExpiredImages rest now
      (r.1, r.2 + 1)
    else (img :: rest, 0)

/-! Basic facts about the `expiresAt`-index range model. -/

theorem cursorWalk_eq_getElem (l : List ImageData) (n : ℕ) :
    cursorWalk l n = l[n]? := by
  induction l generalizing n with
  | nil => cases n <;> rfl
  | cons x xs ih =>
    cases n with
    | zero => simp [cursorWalk]
    | succ m => simpa [cursorWalk] using ih m

theorem validRange_eq_filter (store : List ImageData) (now : ℕ)
    (hs : SortedByExpiry store) :
    validRange store now = store.filter (fun img => now ≤ img.expiresAt) := by
  induction store with
  | nil => rfl
  | cons x xs ih =>
    have hx : xs.Pairwise (fun a b => a.expiresAt ≤ b.expiresAt) :=
      (List.pairwise_cons.mp hs).2
    have hrel : ∀ b ∈ xs, x.expiresAt ≤ b.expiresAt :=
      (List.pairwise_cons.mp hs).1
    by_cases h : x.expiresAt < now
    · have hnot : ¬ now ≤ x.expiresAt := not_le.mpr h
      have hxs := ih hx
      simp only [validRange, List.dropWhile_cons] at hxs ⊢
      simp [h, hnot, hxs]
    · have hle : now ≤ x.expiresAt := not_lt.mp h
      have hall : ∀ b ∈ xs, now ≤ b.expiresAt := fun b hb =>
        le_trans hle (hrel b hb)
      have : xs.filter (fun img => now ≤ img.expiresAt) = xs :=
        List.filter_eq_self.mpr (fun b hb => by simpa using hall b hb)
      simp [validRange, List.dropWhile, h, List.filter, hle, this]

theorem validRange_mem (store : List ImageData) (now : ℕ)
    (hs : SortedByExpiry store) :
    ∀ img ∈ validRange store now, now ≤ img.expiresAt ∧ img ∈ store := by
  intro img hmem
  rw [validRange_eq_filter store now hs] at hmem
  have := List.of_mem_filter hmem
  exact ⟨by simpa using this, List.mem_of_mem_filter hmem⟩

theorem getRandomImageWithDB_none (store : List ImageData) (now draw : ℕ)
    (h : validCount store now = 0) :
    getRandomImageWithDB store now draw = none := by
  simp [getRandomImageWithDB, h]

theorem getRandomImageWithDB_valid (store : List ImageData) (now draw : ℕ)
    (hs : SortedByExpiry store) (hd : draw < validCount store now) :
    ∃ img, getRandomImageWithDB store now draw = some img ∧
      now ≤ img.expiresAt ∧ img ∈ store := by
  have hne : validCount store now ≠ 0 := by omega
  have hlt : draw < (validRange store now).length := hd
  refine ⟨(validRange store now).get ⟨draw, hlt⟩, ?_, ?_⟩
  · simp [getRandomImageWithDB, hne, cursorWalk_eq_getElem,
      List.getElem?_eq_getElem hlt]
  · exact validRange_mem store now hs _ (List.get_mem _ _ _)

theorem getRandomImageGo_valid (store : List ImageData) (now : ℕ)
    (draws : ℕ → ℕ) (viewed : ImageData → Bool) (hs : SortedByExpiry store)
    (hd : ∀ k, validCount store now ≠ 0 → draws k < validCount store now) :
    ∀ (fuel callIdx : ℕ) (start : Option ImageData),
      (∀ i, start = some i → now ≤ i.expiresAt) →
      ∀ img, getRandomImageGo store now draws viewed fuel callIdx start = some img →
        now ≤ img.expiresAt := by
  intro fuel
  induction fuel with
  | zero => intro callIdx start hstart img hrun; exact hstart img hrun
  | succ k ih =>
    intro callIdx start hstart img hrun
    cases start with
    | none => simp [getRandomImageGo] at hrun
    | some i =>
      by_cases hv : viewed i
      · rw [getRandomImageGo, if_pos hv] at hrun
        refine ih (callIdx + 1) _ ?_ img hrun
        intro j hj
        by_cases hz : validCount store now = 0
        · rw [getRandomImageWithDB_none store now _ hz] at hj; cases hj
        · obtain ⟨img', heq, hexp, _⟩ :=
            getRandomImageWithDB_valid store now (draws callIdx) hs (hd callIdx hz)
          rw [heq] at hj
          cases hj
          exact hexp
      · rw [getRandomImageGo, if_neg hv] at hrun
        cases hrun
        exact hstart _ rfl

/-- C1 (amended): the random selection queries the `expiresAt` index with the
inclusive range `[now, ∞)`, so the returned item always satisfies
`expiresAt ≥ now` (not the claimed strict `expiresAt > now`); it counts the
valid items via the index, streams the range cursor to the drawn index in
`[0, count)`, and resolves `null` exactly when the valid count is zero.  The
property lifts through the `getRandomImage` retry wrapper. -/
theorem getRandomImage_neverExpired (store : List ImageData) (now draw : ℕ)
    (draws : ℕ → ℕ) (viewed : ImageData → Bool) (hs : SortedByExpiry store) :
    (validCount store now = 0 → getRandomImageWithDB store now draw = none) ∧
    (draw < validCount store now →
      ∃ img, getRandomImageWithDB store now draw = some img ∧
        now ≤ img.expiresAt ∧ img ∈ store) ∧
    ((∀ k, validCount store now ≠ 0 → draws k < validCount store now) →
      ∀ img, getRandomImage store now draws viewed = some img →
        now ≤ img.expiresAt) := by
  refine ⟨getRandomImageWithDB_none store now draw,
    fun hd => getRandomImageWithDB_valid store now draw hs hd, fun hd => ?_⟩
  intro img hrun
  refine getRandomImageGo_valid store now draws viewed hs hd 4 1
    (getRandomImageWithDB store now (draws 0)) ?_ img hrun
  intro j hj
  by_cases hz : validCount store now = 0
  · rw [getRandomImageWithDB_none store now _ hz] at hj; cases hj
  · obtain ⟨img', heq, hexp, _⟩ :=
      getRandomImageWithDB_valid store now (draws 0) hs (hd 0 hz)
    rw [heq] at hj
    cases hj
    exact hexp

/-- Concrete item expiring exactly at time 5. -/
def imgAtFive : ImageData :=
  { id := "unsplash_a", url := "u", payload := 1, source := .unsplash,
    downloadUrl := "d", author := "A", authorUrl := "au",
    timestamp := 0, expiresAt := 5 }

/-- Concrete item expiring at time 10. -/
def imgAtTen : ImageData :=
  { id := "pexels_b", url := "v", payload := 2, source := .pexels,
    downloadUrl := "e", author := "B", authorUrl := "bu",
    timestamp := 0, expiresAt := 10 }

/-- C1 counterexample: querying at `now = 5` a store whose only item expires
exactly at 5 returns that item (the index lower bound is inclusive), so the
returned item does NOT have `expiresAt` strictly greater than `now`. -/
theorem getRandomImage_boundary_counterexample :
    getRandomImageWithDB [imgAtFive] 5 0 = some imgAtFive ∧
      ¬ 5 < imgAtFive.expiresAt := by
  constructor
  · rfl
  · decide

/-- C1 witness: the amended theorem applied to a concrete sorted store. -/
theorem getRandomImage_neverExpired_witness :
    ∃ img, getRandomImageWithDB [imgAtFive, imgAtTen] 4 1 = some img ∧
      4 ≤ img.expiresAt ∧ img ∈ [imgAtFive, imgAtTen] :=
  (getRandomImage_neverExpired [imgAtFive, imgAtTen] 4 1 (fun _ => 0)
    (fun _ => false) (by decide)).2.1 (by decide)

/-- C6: the expiry sweep streams the `expiresAt` index over the inclusive
range `(-∞, now]` and deletes exactly the items with `expiresAt ≤ now`,
returns the number deleted, and never removes an item with
`expiresAt > now`. -/
theorem cleanExpiredImages_spec (store : List ImageData) (now : ℕ)
    (hs : SortedByExpiry store) :
    (cleanExpiredImages store now).1 =
        store.filter (fun img => decide (now < img.expiresAt)) ∧
    (cleanExpiredImages store now).2 =
        (store.filter (fun img => decide (img.expiresAt ≤ now))).length ∧
    ∀ img ∈ store, now < img.expiresAt →
      img ∈ (cleanExpiredImages store now).1 := by
  induction store with
  | nil => exact ⟨rfl, rfl, by intro img h; cases h⟩
  | cons x xs ih =>
    have hx : xs.Pairwise (fun a b => a.expiresAt ≤ b.expiresAt) :=
      (List.pairwise_cons.mp hs).2
    have hrel : ∀ b ∈ xs, x.expiresAt ≤ b.expiresAt :=
      (List.pairwise_cons.mp hs).1
    obtain ⟨ih1, ih2, ih3⟩ := ih hx
    by_cases h : x.expiresAt ≤ now
    · have hnot : ¬ now < x.expiresAt := not_lt.mpr h
      refine ⟨?_, ?_, ?_⟩
      · simp [cleanExpiredImages, h, hnot, ih1]
      · simp [cleanExpiredImages, h, ih2]
      · intro img hmem hvalid
        rcases List.mem_cons.mp hmem with rfl | hmem'
        · exact absurd hvalid hnot
        · simpa [cleanExpiredImages, h] using ih3 img hmem' hvalid
    · have hlt : now < x.expiresAt := not_le.mp h
      have hall : ∀ b ∈ xs, now < b.expiresAt := fun b hb =>
        lt_of_lt_of_le hlt (hrel b hb)
      refine ⟨?_, ?_, ?_⟩
      · have : xs.filter (fun img => decide (now < img.expiresAt)) = xs :=
          List.filter_eq_self.mpr (fun b hb => by simpa using hall b hb)
        simp [cleanExpiredImages, h, hlt, this]
      · have : xs.filter (fun img => decide (img.expiresAt ≤ now)) = [] :=
          List.filter_eq_nil_iff.mpr
            (fun b hb => by simpa using not_le.mpr (hall b hb))
        simp [cleanExpiredImages, h, this]
      · intro img hmem _
        simpa [cleanExpiredImages, h] using hmem

/-- C6 witness: the sweep theorem applied to a concrete sorted store at
`now = 5`: the item expiring at 5 is removed, the one expiring at 10 kept. -/
theorem cleanExpiredImages_spec_witness :
    (cleanExpiredImages [imgAtFive, imgAtTen] 5).1 =
        [imgAtFive, imgAtTen].filter (fun img => decide (5 < img.expiresAt)) ∧
    (cleanExpiredImages [imgAtFive, imgAtTen] 5).2 =
        ([imgAtFive, imgAtTen].filter
          (fun img => decide (img.expiresAt ≤ 5))).length ∧
    ∀ img ∈ [imgAtFive, imgAtTen], 5 < img.expiresAt →
      img ∈ (cleanExpiredImages [imgAtFive, imgAtTen] 5).1 :=
  cleanExpiredImages_spec [imgAtFive, imgAtTen] 5 (by decide)

/-! Downloader: `downloadFile` and `downloadSingleImage` from
`src/api/index.ts`.  A run is driven by an environment `env : ℕ → FetchOutcome`
giving the outcome of each successive network fetch attempt. -/

/-- Outcome of one network fetch attempt as classified by `downloadFile`:
a 2xx response with its payload, a non-2xx response (`HttpError` with its
status), or a network-level failure (timeout, abort, connection reset). -/
inductive FetchOutcome
  | success (payload : ℕ)
  | httpError (status : ℕ)
  | netError
deriving DecidableEq, Repr

/-- The fixed `NON_RETRYABLE_STATUS_CODES` set from `src/api/index.ts`. -/
def NON_RETRYABLE_STATUS_CODES : List ℕ :=
  [400, 401, 402, 403, 404, 409, 422, 429, 500, 501, 502, 503]

/-- An outcome on which `downloadFile` raises without retrying. -/
def nonRetryable : FetchOutcome → Bool
  | .httpError s => NON_RETRYABLE_STATUS_CODES.contains s
  | _ => false

/-- A failed outcome that `downloadFile` retries (timeout, connection reset,
or a status outside the non-retryable set). -/
def retryableFail : FetchOutcome → Bool
  | .success _ => false
  | o => !nonRetryable o

/-- The error with which a `downloadFile` run rejects. -/
inductive DownloadError
  | http (status : ℕ)
  | net
deriving DecidableEq, Repr

/-- Error carried by a failed outcome. -/
def outcomeError : FetchOutcome → DownloadError
  | .httpError s => .http s
  | _ => .net

/-- Result of a `downloadFile` run. -/
inductive DownloadResult
  | ok (payload : ℕ)
  | err (e : DownloadError)
deriving DecidableEq, Repr

/-- How an attempt resolves once `downloadFile` stops retrying at it. -/
def classifyResult : FetchOutcome → DownloadResult
  | .success b => .ok b
  | o => .err (outcomeError o)

/-- Trace of one `downloadFile` run: the result, the number of fetch attempts
made, and the backoff delays slept between attempts. -/
structure DownloadRun where
  result : DownloadResult
  attemptsUsed : ℕ
  delays : List ℕ
deriving DecidableEq, Repr

/-- Loop body of `downloadFile` (`for attempt in 0..=maxRetries`): a 2xx
response returns the payload; a non-2xx status in the non-retryable set
raises at once; any other failure raises if the retry budget is exhausted
and otherwise sleeps `initialBackoffMs * backoffMultiplier ^ attempt` and
retries.  `fuel` is `maxRetries + 1 - attempt`. -/
def downloadFileGo (env : ℕ → FetchOutcome)
    (maxRetries initialBackoffMs backoffMultiplier : ℕ) :
    ℕ → ℕ → DownloadRun
  | 0, _ => ⟨.err .net, 0, []⟩
  | fuel + 1, attempt =>
    match env attempt with
    | .success b => ⟨.ok b, 1, []⟩
    | o =>
      if nonRetryable o then ⟨.err (outcomeError o), 1, []⟩
      else if attempt = maxRetries then ⟨.err (outcomeError o), 1, []⟩
      else
        ⟨(downloadFileGo env maxRetries initialBackoffMs backoffMultiplier
            fuel (attempt + 1)).result,
         (downloadFileGo env maxRetries initialBackoffMs backoffMultiplier
            fuel (attempt + 1)).attemptsUsed + 1,
         initialBackoffMs * backoffMultiplier ^ attempt ::
           (downloadFileGo env maxRetries initialBackoffMs backoffMultiplier
             fuel (attempt + 1)).delays⟩

/-- Embedding of `downloadFile` (`src/api/index.ts`). -/
def downloadFile (env : ℕ → FetchOutcome)
    (maxRetries initialBackoffMs backoffMultiplier : ℕ) : DownloadRun :=
  downloadFileGo env maxRetries initialBackoffMs backoffMultiplier
    (maxRetries + 1) 0

/-- `DEFAULT_MAX_RETRIES` from `src/config`. -/
def DEFAULT_MAX_RETRIES : ℕ := 3

/-- `DEFAULT_INITIAL_BACKOFF_MS` from `src/config`. -/
def DEFAULT_INITIAL_BACKOFF_MS : ℕ := 1000

/-- `DEFAULT_BACKOFF_MULTIPLIER` from `src/config`. -/
def DEFAULT_BACKOFF_MULTIPLIER : ℕ := 2

/-- An attempt index at which `downloadFile` stops: its outcome is decisive
(success or non-retryable) or the retry budget ends there. -/
def decisiveAt (env : ℕ → FetchOutcome) (maxRetries n : ℕ) : Prop :=
  retryableFail (env n) = false ∨ n = maxRetries

theorem backoff_delays_shift (ib bm a k : ℕ) :
    ib * bm ^ a :: (List.range k).map (fun j => ib * bm ^ (a + 1 + j)) =
      (List.range (k + 1)).map (fun j => ib * bm ^ (a + j)) := by
  rw [List.range_succ_eq_map, List.map_cons, List.map_map]
  refine congrArg _ ?_
  apply List.map_congr_left
  intro j _
  simp only [Function.comp_apply]
  have h : a + 1 + j = a + (j + 1) := by omega
  rw [h]

theorem downloadFileGo_decisive (env : ℕ → FetchOutcome) (mr ib bm : ℕ) :
    ∀ (k a fuel : ℕ), a + fuel = mr + 1 →
      (∀ j, j < k → retryableFail (env (a + j)) = true) →
      a + k ≤ mr → decisiveAt env mr (a + k) →
      downloadFileGo env mr ib bm fuel a =
        ⟨classifyResult (env (a + k)), k + 1,
          (List.range k).map (fun j => ib * bm ^ (a + j))⟩ := by
  intro k
  induction k with
  | zero =>
    intro a fuel hfuel _ hle hdec
    obtain ⟨f, rfl⟩ : ∃ f, fuel = f + 1 := by
      cases fuel with
      | zero => omega
      | succ f => exact ⟨f, rfl⟩
    simp only [Nat.add_zero] at hdec hle ⊢
    cases henv : env a with
    | success b => simp [downloadFileGo, henv, classifyResult]
    | httpError s =>
      by_cases hnr : nonRetryable (FetchOutcome.httpError s)
      · simp [downloadFileGo, henv, hnr, classifyResult, outcomeError]
      · have ha : a = mr := by
          rcases hdec with hdec | hdec
          · exfalso
            simp [retryableFail, henv, hnr] at hdec
          · exact hdec
        subst ha
        simp [downloadFileGo, henv, hnr, classifyResult, outcomeError]
    | netError =>
      have hnr : nonRetryable FetchOutcome.netError = false := by
        simp [nonRetryable]
      have ha : a = mr := by
        rcases hdec with hdec | hdec
        · exfalso
          simp [retryableFail, henv, hnr] at hdec
        · exact hdec
      subst ha
      simp [downloadFileGo, henv, hnr, classifyResult, outcomeError]
  | succ k ih =>
    intro a fuel hfuel hretry hle hdec
    have h0 : retryableFail (env a) = true := by
      simpa using hretry 0 (Nat.succ_pos k)
    have hamr : a ≠ mr := by omega
    obtain ⟨f, rfl⟩ : ∃ f, fuel = f + 1 := by
      cases fuel with
      | zero => omega
      | succ f => exact ⟨f, rfl⟩
    have hrec := ih (a + 1) f (by omega)
      (fun j hj => by
        have := hretry (j + 1) (by omega)
        simpa [Nat.add_assoc, Nat.add_comm 1 j] using this)
      (by omega)
      (by
        have h : a + 1 + k = a + (k + 1) := by omega
        rw [h]; exact hdec)
    have hshift : a + 1 + k = a + (k + 1) := by omega
    rw [hshift] at hrec
    cases henv : env a with
    | success b => simp [retryableFail, henv] at h0
    | httpError s =>
      have hnr : nonRetryable (FetchOutcome.httpError s) = false := by
        simpa [retryableFail, henv] using h0
      rw [downloadFileGo]
      simp only [henv]
      rw [if_neg (by simp [hnr]), if_neg hamr, hrec]
      simp only [DownloadRun.mk.injEq]
      exact ⟨trivial, trivial, backoff_delays_shift ib bm a k⟩
    | netError =>
      have hnr : nonRetryable FetchOutcome.netError = false := by
        simp [nonRetryable]
      rw [downloadFileGo]
      simp only [henv]
      rw [if_neg (by simp [hnr]), if_neg hamr, hrec]
      simp only [DownloadRun.mk.injEq]
      exact ⟨trivial, trivial, backoff_delays_shift ib bm a k⟩

/-- C5: for every `downloadFile` run, (1) a non-2xx response whose status is
in the fixed non-retryable set raises immediately, with no further attempt;
(2) a successful attempt returns the payload; (3) any other failure is
retried after a delay of `initialBackoff * multiplier ^ attempt` until
`maxRetries` is exhausted and then raises.  In each case the `delays` trace
lists exactly the backoffs slept. -/
theorem downloadFile_spec (env : ℕ → FetchOutcome) (mr ib bm : ℕ) :
    (∀ k s, k ≤ mr → (∀ j, j < k → retryableFail (env j) = true) →
      env k = .httpError s → s ∈ NON_RETRYABLE_STATUS_CODES →
      downloadFile env mr ib bm =
        ⟨.err (.http s), k + 1, (List.range k).map (fun j => ib * bm ^ j)⟩) ∧
    (∀ k b, k ≤ mr → (∀ j, j < k → retryableFail (env j) = true) →
      env k = .success b →
      downloadFile env mr ib bm =
        ⟨.ok b, k + 1, (List.range k).map (fun j => ib * bm ^ j)⟩) ∧
    ((∀ j, j ≤ mr → retryableFail (env j) = true) →
      downloadFile env mr ib bm =
        ⟨.err (outcomeError (env mr)), mr + 1,
          (List.range mr).map (fun j => ib * bm ^ j)⟩) := by
  have hmap : ∀ k, (List.range k).map (fun j => ib * bm ^ (0 + j)) =
      (List.range k).map (fun j => ib * bm ^ j) := by
    intro k
    apply List.map_congr_left
    intro j _
    rw [Nat.zero_add]
  refine ⟨?_, ?_, ?_⟩
  · intro k s hk hretry henv hmem
    have := downloadFileGo_decisive env mr ib bm k 0 (mr + 1) (by omega)
      (fun j hj => by simpa using hretry j hj) (by omega)
      (by
        left
        simp [retryableFail, Nat.zero_add, henv, nonRetryable]
        exact hmem)
    rw [downloadFile, this, Nat.zero_add, henv, hmap]
    rfl
  · intro k b hk hretry henv
    have := downloadFileGo_decisive env mr ib bm k 0 (mr + 1) (by omega)
      (fun j hj => by simpa using hretry j hj) (by omega)
      (by left; simp [retryableFail, Nat.zero_add, henv])
    rw [downloadFile, this, Nat.zero_add, henv, hmap]
    rfl
  · intro hretry
    have := downloadFileGo_decisive env mr ib bm mr 0 (mr + 1) (by omega)
      (fun j hj => by simpa using hretry j (by omega)) (by omega)
      (by right; omega)
    rw [downloadFile, this, Nat.zero_add, hmap]
    have hns : classifyResult (env mr) = .err (outcomeError (env mr)) := by
      have h := hretry mr (le_refl mr)
      cases henv : env mr with
      | success b => rw [henv] at h; simp [retryableFail] at h
      | httpError s => simp [classifyResult]
      | netError => simp [classifyResult]
    rw [hns]

/-- A concrete fetch environment: the first attempt times out, every later
attempt succeeds with payload 7. -/
def sampleFetchEnv : ℕ → FetchOutcome :=
  fun j => if j = 0 then .netError else .success 7

/-- C5 witness: with the default options (3 retries, 1s initial backoff,
multiplier 2) on `sampleFetchEnv`, `downloadFile` retries the timeout once
after a 1000 ms backoff and returns payload 7 on the second attempt. -/
theorem downloadFile_spec_witness :
    downloadFile sampleFetchEnv 3 1000 2 = ⟨.ok 7, 2, [1000]⟩ := by
  have h := (downloadFile_spec sampleFetchEnv 3 1000 2).2.1 1 7 (by decide)
    (fun j hj => by
      have hj0 : j = 0 := by omega
      subst hj0
      decide)
    (by decide)
  simpa using h

/-- Loop body of `downloadSingleImage` (`src/api/index.ts`): up to
`DEFAULT_MAX_RETRIES` outer attempts; each invokes `downloadFile` with
`maxRetries := 1` ("Already handling retries here"), so each outer attempt
may make up to two fetches; a failed outer attempt backs off and retries,
and once the budget is spent the item resolves to `none` — it never raises.
`fetched` counts the network fetches made so far; the environment is shifted
accordingly so successive `downloadFile` calls consume successive
outcomes. -/
def downloadSingleImageGo (env : ℕ → FetchOutcome) : ℕ → ℕ → Option ℕ × ℕ
  | 0, fetched => (none, fetched)
  | tries + 1, fetched =>
    let run := downloadFile (fun j => env (fetched + j)) 1
      DEFAULT_INITIAL_BACKOFF_MS DEFAULT_BACKOFF_MULTIPLIER
    match run.result with
    | .ok b => (some b, fetched + run.attemptsUsed)
    | .err _ => downloadSingleImageGo env tries (fetched + run.attemptsUsed)

/-- Embedding of `downloadSingleImage` (`src/api/index.ts`): the result is
the payload (or `none` when the item is given up) paired with the total
number of network fetch attempts made for the item. -/
def downloadSingleImage (env : ℕ → FetchOutcome) : Option ℕ × ℕ :=
  downloadSingleImageGo env DEFAULT_MAX_RETRIES 0

theorem downloadFileGo_attempts_le (env : ℕ → FetchOutcome) (mr ib bm : ℕ) :
    ∀ fuel attempt,
      (downloadFileGo env mr ib bm fuel attempt).attemptsUsed ≤ fuel := by
  intro fuel
  induction fuel with
  | zero => intro attempt; simp [downloadFileGo]
  | succ f ih =>
    intro attempt
    rw [downloadFileGo]
    cases env attempt with
    | success b => simp
    | httpError s =>
      by_cases hnr : nonRetryable (FetchOutcome.httpError s) <;>
        by_cases hm : attempt = mr <;>
          simp [hnr, hm, Nat.succ_le_succ (ih (attempt + 1))]
    | netError =>
      by_cases hnr : nonRetryable FetchOutcome.netError <;>
        by_cases hm : attempt = mr <;>
          simp [hnr, hm, Nat.succ_le_succ (ih (attempt + 1))]

theorem downloadSingleImageGo_fetches_le (env : ℕ → FetchOutcome) :
    ∀ tries fetched,
      (downloadSingleImageGo env tries fetched).2 ≤ fetched + 2 * tries := by
  intro tries
  induction tries with
  | zero => intro fetched; simp [downloadSingleImageGo]
  | succ t ih =>
    intro fetched
    rw [downloadSingleImageGo]
    have hb : (downloadFile (fun j => env (fetched + j)) 1
        DEFAULT_INITIAL_BACKOFF_MS DEFAULT_BACKOFF_MULTIPLIER).attemptsUsed
        ≤ 2 :=
      downloadFileGo_attempts_le _ 1 _ _ 2 0
    cases hres : (downloadFile (fun j => env (fetched + j)) 1
        DEFAULT_INITIAL_BACKOFF_MS DEFAULT_BACKOFF_MULTIPLIER).result with
    | ok b => simp [hres]; omega
    | err e =>
      simp only [hres]
      calc (downloadSingleImageGo env t (fetched + _)).2
          ≤ fetched + (downloadFile (fun j => env (fetched + j)) 1
              DEFAULT_INITIAL_BACKOFF_MS
              DEFAULT_BACKOFF_MULTIPLIER).attemptsUsed + 2 * t := ih _
        _ ≤ fetched + 2 * (t + 1) := by omega

theorem downloadSingleImageGo_allFail (env : ℕ → FetchOutcome)
    (hall : ∀ j, retryableFail (env j) = true) :
    ∀ tries fetched,
      downloadSingleImageGo env tries fetched = (none, fetched + 2 * tries) := by
  intro tries
  induction tries with
  | zero => intro fetched; simp [downloadSingleImageGo]
  | succ t ih =>
    intro fetched
    have hrun := downloadFileGo_decisive (fun j => env (fetched + j)) 1
      DEFAULT_INITIAL_BACKOFF_MS DEFAULT_BACKOFF_MULTIPLIER 1 0 2 (by omega)
      (fun j hj => by
        have hj0 : j = 0 := by omega
        subst hj0
        simpa using hall fetched)
      (by omega) (by right; omega)
    have hcl : classifyResult (env (fetched + (0 + 1))) =
        .err (outcomeError (env (fetched + 1))) := by
      have h := hall (fetched + 1)
      cases henv : env (fetched + 1) with
      | success b => rw [henv] at h; simp [retryableFail] at h
      | httpError s => simp [Nat.zero_add, henv, classifyResult]
      | netError => simp [Nat.zero_add, henv, classifyResult]
    rw [downloadSingleImageGo]
    simp only [downloadFile, hrun, hcl]
    rw [ih (fetched + 2)]
    refine congrArg _ ?_
    omega

/-- C3 counterexample: when every fetch fails with a retryable error the
per-item download path makes 6 network fetch attempts in total (3 outer
attempts, each delegating to `downloadFile` with a retry budget of 1), which
refutes the claimed bound of at most 3 attempts; the item still resolves to
`none`. -/
theorem downloadSingleImage_attempts_counterexample :
    (downloadSingleImage (fun _ => FetchOutcome.netError)).2 = 6 ∧
    ¬ (downloadSingleImage (fun _ => FetchOutcome.netError)).2 ≤ 3 ∧
    (downloadSingleImage (fun _ => FetchOutcome.netError)).1 = none := by
  refine ⟨rfl, by decide, rfl⟩

/-- C3 (amended): at most `2 * DEFAULT_MAX_RETRIES = 6` network fetch
attempts are made per item (3 outer attempts, each invoking the Downloader
with `maxRetries := 1`, i.e. up to two fetches each); when the budget is
spent the item resolves to `none` (dropped) rather than raising, so a failed
item cannot abort sibling downloads or the enclosing provider batch. -/
theorem downloadSingleImage_spec (env : ℕ → FetchOutcome) :
    (downloadSingleImage env).2 ≤ 2 * DEFAULT_MAX_RETRIES ∧
    ((∀ j, retryableFail (env j) = true) →
      downloadSingleImage env = (none, 2 * DEFAULT_MAX_RETRIES)) := by
  constructor
  · simpa using downloadSingleImageGo_fetches_le env DEFAULT_MAX_RETRIES 0
  · intro hall
    simpa using downloadSingleImageGo_allFail env hall DEFAULT_MAX_RETRIES 0

/-- C3 witness: the amended theorem applied to the all-timeouts environment:
6 fetches are made and the item is dropped as `none`. -/
theorem downloadSingleImage_spec_witness :
    downloadSingleImage (fun _ => FetchOutcome.netError) =
      (none, 2 * DEFAULT_MAX_RETRIES) :=
  (downloadSingleImage_spec (fun _ => FetchOutcome.netError)).2
    (fun _ => by decide)

/-! History Ring: `addToHistory` from `src/db/index.ts`. -/

/-- Embedding of the `HistoryEntry` record. -/
structure HistoryEntry where
  id : ℕ
  imageId : String
  viewedAt : ℕ
  source : Source
deriving DecidableEq, Repr

/-- History lists are kept in `viewedAt`-index order (ascending `viewedAt`;
ties resolve by the auto-incremented primary key, so a newly added entry
stamped with the current time belongs at the end). -/
def SortedByViewedAt (hist : List HistoryEntry) : Prop :=
  hist.Pairwise (fun a b => a.viewedAt ≤ b.viewedAt)

instance (hist : List HistoryEntry) : Decidable (SortedByViewedAt hist) := by
  unfold SortedByViewedAt
  infer_instance

/-- Embedding of `addToHistory` (`src/db/index.ts`): add the new entry, count
the store, and when `count > maxSize` walk the ascending `viewedAt` index
deleting entries until `count - maxSize` have been removed.  Returns the
resulting history together with the removed entries. -/
def addToHistory (hist : List HistoryEntry) (e : HistoryEntry)
    (maxSize : ℕ) : List HistoryEntry × List HistoryEntry :=
  let afterAdd := hist ++ [e]
  let count := afterAdd.length
  if maxSize < count then
    (afterAdd.drop (count - maxSize), afterAdd.take (count - maxSize))
  else (afterAdd, [])

/-- A sequence of `Append` display events folded into the history. -/
def appendHistorySeq (events : List HistoryEntry) (maxSize : ℕ) :
    List HistoryEntry :=
  events.foldl (fun h e => (addToHistory h e maxSize).1) []

theorem addToHistory_length_le (hist : List HistoryEntry)
    (e : HistoryEntry) (maxSize : ℕ) :
    ((addToHistory hist e maxSize).1).length ≤ maxSize := by
  unfold addToHistory
  simp only [List.length_append, List.length_singleton]
  by_cases h : maxSize < hist.length + 1
  · simp only [h, if_true, List.length_drop, List.length_append,
      List.length_singleton]
    omega
  · simp only [h, if_false, List.length_append, List.length_singleton]
    omega

theorem appendHistorySeq_go_le (maxSize : ℕ) :
    ∀ (events start : List HistoryEntry), start.length ≤ maxSize →
      (events.foldl (fun h e => (addToHistory h e maxSize).1) start).length
        ≤ maxSize := by
  intro events
  induction events with
  | nil => intro start h; simpa using h
  | cons e es ih =>
    intro start _
    simpa using ih _ (addToHistory_length_le start e maxSize)

/-- C8: after any sequence of history `Append` operations with a configured
`maxSize` the record count is at most `maxSize`; a single `Append` trims
exactly `(count + 1) - maxSize` entries in the same step, and each trimmed
entry is oldest by `viewedAt` (no kept entry is older than a removed one). -/
theorem addToHistory_spec (events : List HistoryEntry)
    (hist : List HistoryEntry) (e : HistoryEntry) (maxSize : ℕ) :
    (appendHistorySeq events maxSize).length ≤ maxSize ∧
    ((addToHistory hist e maxSize).2).length = (hist.length + 1) - maxSize ∧
    (SortedByViewedAt hist → (∀ h ∈ hist, h.viewedAt ≤ e.viewedAt) →
      ∀ r ∈ (addToHistory hist e maxSize).2,
        ∀ k ∈ (addToHistory hist e maxSize).1,
          r.viewedAt ≤ k.viewedAt) := by
  refine ⟨appendHistorySeq_go_le maxSize events [] (by simp), ?_, ?_⟩
  · unfold addToHistory
    simp only [List.length_append, List.length_singleton]
    by_cases h : maxSize < hist.length + 1
    · simp only [h, if_true, List.length_take, List.length_append,
        List.length_singleton]
      omega
    · simp only [h, if_false, List.length_nil]
      omega
  · intro hsorted hlatest
    have hsortAll : (hist ++ [e]).Pairwise
        (fun a b => a.viewedAt ≤ b.viewedAt) := by
      rw [List.pairwise_append]
      exact ⟨hsorted, List.pairwise_singleton _ _,
        fun a ha b hb => by
          rw [List.mem_singleton] at hb
          subst hb
          exact hlatest a ha⟩
    unfold addToHistory
    simp only [List.length_append, List.length_singleton]
    by_cases h : maxSize < hist.length + 1
    · simp only [h, if_true]
      set n := hist.length + 1 - maxSize with hn
      have hsplit := List.take_append_drop n (hist ++ [e])
      rw [← hsplit] at hsortAll
      have := (List.pairwise_append.mp hsortAll).2.2
      intro r hr k hk
      exact this r hr k hk
    · simp only [h, if_false]
      intro r hr
      cases hr

/-- Concrete history entries for the witness. -/
def histEntryA : HistoryEntry :=
  { id := 1, imageId := "unsplash_a", viewedAt := 100, source := .unsplash }

/-- Second concrete history entry. -/
def histEntryB : HistoryEntry :=
  { id := 2, imageId := "pexels_b", viewedAt := 200, source := .pexels }

/-- Third concrete history entry. -/
def histEntryC : HistoryEntry :=
  { id := 3, imageId := "unsplash_c", viewedAt := 300, source := .unsplash }

/-- C8 witness: appending to a two-entry history with `maxSize = 2` trims
exactly the single oldest entry and the bound holds for a concrete event
sequence. -/
theorem addToHistory_spec_witness :
    (appendHistorySeq [histEntryA, histEntryB, histEntryC] 2).length ≤ 2 ∧
    ((addToHistory [histEntryA, histEntryB] histEntryC 2).2).length =
      ([histEntryA, histEntryB].length + 1) - 2 ∧
    (SortedByViewedAt [histEntryA, histEntryB] →
      (∀ h ∈ [histEntryA, histEntryB], h.viewedAt ≤ histEntryC.viewedAt) →
      ∀ r ∈ (addToHistory [histEntryA, histEntryB] histEntryC 2).2,
        ∀ k ∈ (addToHistory [histEntryA, histEntryB] histEntryC 2).1,
          r.viewedAt ≤ k.viewedAt) :=
  addToHistory_spec [histEntryA, histEntryB, histEntryC]
    [histEntryA, histEntryB] histEntryC 2

/-! Rotation Cursor: `getNextKeywordSequentially` (`src/api/index.ts`) with
the persisted `lastKeywordIndex` (`src/storage/index.ts`, default `-1`). -/

/-- Character-level accumulator for splitting on `,`. -/
def splitCommaAux : List Char → List Char → List (List Char)
  | [], acc => [acc.reverse]
  | c :: rest, acc =>
    if c = ',' then acc.reverse :: splitCommaAux rest []
    else splitCommaAux rest (c :: acc)

/-- Semantics of the JS `s.split(",")`. -/
def splitOnComma (s : String) : List String :=
  (splitCommaAux s.data []).map (fun cs => String.mk cs)

/-- Semantics of the JS `k.trim()`: strip leading and trailing whitespace. -/
def trimString (s : String) : String :=
  String.mk
    (((s.data.dropWhile Char.isWhitespace).reverse.dropWhile
        Char.isWhitespace).reverse)

/-- First-seen-order deduplication, as the JS
`filter((k, index, self) => self.indexOf(k) === index)`: keep an element only
when it has not been seen before. -/
def dedupFirstSeen : List String → List String → List String
  | _, [] => []
  | seen, k :: rest =>
    if k ∈ seen then dedupFirstSeen seen rest
    else k :: dedupFirstSeen (k :: seen) rest

/-- Merged keyword list of `getNextKeywordSequentially`: split both
comma-separated settings strings, trim every entry, drop empties, and
deduplicate preserving first-seen order. -/
def mergeKeywords (unsplashKeywords pexelsKeywords : String) : List String :=
  dedupFirstSeen []
    (((splitOnComma unsplashKeywords).map trimString ++
        (splitOnComma pexelsKeywords).map trimString).filter
      (fun k => decide (0 < k.length)))

/-- Embedding of `getNextKeywordSequentially` (`src/api/index.ts`): on an
empty merged list return `null` without touching the stored cursor; otherwise
advance the cursor to `(lastIndex + 1) % length`, persist it via
`saveLastKeywordIndex`, and return the keyword at the new position.  Result:
selected keyword, cursor value after the call, and whether the cursor was
persisted. -/
def getNextKeywordSequentially (uk pk : String) (lastIndex : Int) :
    Option String × Int × Bool :=
  let all := mergeKeywords uk pk
  if all.length = 0 then (none, lastIndex, false)
  else
    let nextIndex : Int := (lastIndex + 1) % (all.length : Int)
    (all[nextIndex.toNat]?, nextIndex, true)

/-- Cursor state across fetch sessions: `getLastKeywordIndex` yields `-1`
before anything is stored, then each session persists the advanced value. -/
def keywordCursorIter (uk pk : String) : ℕ → Int
  | 0 => -1
  | n + 1 =>
    (getNextKeywordSequentially uk pk (keywordCursorIter uk pk n)).2.1

/-- Keyword returned by the (0-based) n-th fetch session. -/
def keywordAtCall (uk pk : String) (n : ℕ) : Option String :=
  (getNextKeywordSequentially uk pk (keywordCursorIter uk pk n)).1

/-- How many of the first `N` sessions return the keyword at merged index
`i`. -/
def visitCount (uk pk : String) (N i : ℕ) : ℕ :=
  ((List.range N).filter
    (fun k => keywordAtCall uk pk k = (mergeKeywords uk pk)[i]?)).length

theorem dedupFirstSeen_not_mem_seen :
    ∀ (l seen : List String) (x : String),
      x ∈ dedupFirstSeen seen l → x ∉ seen := by
  intro l
  induction l with
  | nil =>
    intro seen x hx
    simp [dedupFirstSeen] at hx
  | cons k rest ih =>
    intro seen x hx hmem
    by_cases hk : k ∈ seen
    · rw [dedupFirstSeen, if_pos hk] at hx
      exact ih seen x hx hmem
    · rw [dedupFirstSeen, if_neg hk] at hx
      rcases List.mem_cons.mp hx with rfl | hx'
      · exact hk hmem
      · exact ih (k :: seen) x hx' (List.mem_cons_of_mem _ hmem)

theorem dedupFirstSeen_nodup :
    ∀ (l seen : List String), (dedupFirstSeen seen l).Nodup := by
  intro l
  induction l with
  | nil => intro seen; simp [dedupFirstSeen]
  | cons k rest ih =>
    intro seen
    by_cases hk : k ∈ seen
    · rw [dedupFirstSeen, if_pos hk]
      exact ih seen
    · rw [dedupFirstSeen, if_neg hk]
      refine List.nodup_cons.mpr ⟨?_, ih (k :: seen)⟩
      intro hmem
      exact dedupFirstSeen_not_mem_seen rest (k :: seen) k hmem
        (List.mem_cons_self k seen)

theorem mergeKeywords_nodup (uk pk : String) :
    (mergeKeywords uk pk).Nodup :=
  dedupFirstSeen_nodup _ []

theorem succ_mod_shift (n L : ℕ) : (n % L + 1) % L = (n + 1) % L := by
  conv_lhs => rw [Nat.add_mod]
  conv_rhs => rw [Nat.add_mod]
  rw [Nat.mod_mod_of_dvd n (dvd_refl L)]

theorem keywordStep (uk pk : String)
    (hL : (mergeKeywords uk pk).length ≠ 0) :
    ∀ n, getNextKeywordSequentially uk pk (keywordCursorIter uk pk n) =
      ((mergeKeywords uk pk)[n % (mergeKeywords uk pk).length]?,
        ((n % (mergeKeywords uk pk).length : ℕ) : Int), true) := by
  intro n
  induction n with
  | zero =>
    have h0 : ((-1 : Int) + 1) % ((mergeKeywords uk pk).length : Int) = 0 := by
      norm_num
    rw [keywordCursorIter, getNextKeywordSequentially, if_neg hL]
    simp [h0, Nat.zero_mod]
  | succ n ih =>
    rw [keywordCursorIter, ih]
    rw [getNextKeywordSequentially, if_neg hL]
    have h1 : ((n % (mergeKeywords uk pk).length : ℕ) : Int) + 1 =
        ((n % (mergeKeywords uk pk).length + 1 : ℕ) : Int) := by
      push_cast
      ring
    have h2 : ((n % (mergeKeywords uk pk).length + 1 : ℕ) : Int) %
        ((mergeKeywords uk pk).length : Int) =
        (((n % (mergeKeywords uk pk).length + 1) %
          (mergeKeywords uk pk).length : ℕ) : Int) :=
      (Int.natCast_mod _ _).symm
    simp only [h1, h2, succ_mod_shift, Int.toNat_natCast]

theorem keywordAtCall_eq (uk pk : String)
    (hL : (mergeKeywords uk pk).length ≠ 0) (n : ℕ) :
    keywordAtCall uk pk n =
      (mergeKeywords uk pk)[n % (mergeKeywords uk pk).length]? := by
  rw [keywordAtCall, keywordStep uk pk hL n]

theorem mergeKeywords_getElem_inj (uk pk : String) (i j : ℕ)
    (hi : i < (mergeKeywords uk pk).length)
    (hj : j < (mergeKeywords uk pk).length)
    (h : (mergeKeywords uk pk)[i]? = (mergeKeywords uk pk)[j]?) : i = j := by
  rw [List.getElem?_eq_getElem hi, List.getElem?_eq_getElem hj] at h
  exact ((mergeKeywords_nodup uk pk).getElem_inj_iff).mp (Option.some.inj h)

theorem ceil_div_of_mod_ne_zero (N L : ℕ) (hL : L ≠ 0) (hm : N % L ≠ 0) :
    (N + L - 1) / L = N / L + 1 := by
  have hL0 : 0 < L := Nat.pos_of_ne_zero hL
  obtain ⟨q, s, hs, hN⟩ : ∃ q s, s < L ∧ N = L * q + s :=
    ⟨N / L, N % L, Nat.mod_lt _ hL0, (Nat.div_add_mod N L).symm⟩
  subst hN
  have hsmod : (L * q + s) % L = s := by
    rw [Nat.mul_add_mod, Nat.mod_eq_of_lt hs]
  rw [hsmod] at hm
  have h1 : L * q + s + L - 1 = L * (q + 1) + (s - 1) := by
    rw [Nat.mul_succ]
    omega
  rw [h1, Nat.mul_add_div hL0, Nat.mul_add_div hL0,
    Nat.div_eq_of_lt hs, Nat.div_eq_of_lt (by omega : s - 1 < L)]

theorem visitCount_formula (uk pk : String)
    (hL : (mergeKeywords uk pk).length ≠ 0) (N i : ℕ)
    (hi : i < (mergeKeywords uk pk).length) :
    visitCount uk pk N i =
      N / (mergeKeywords uk pk).length +
        if i < N % (mergeKeywords uk pk).length then 1 else 0 := by
  have hL0 : 0 < (mergeKeywords uk pk).length := Nat.pos_of_ne_zero hL
  unfold visitCount
  rw [List.filter_congr (q := fun k =>
      decide (k % (mergeKeywords uk pk).length = i))
    (fun k _ => by
      rw [decide_eq_decide, keywordAtCall_eq uk pk hL k]
      constructor
      · intro h
        exact mergeKeywords_getElem_inj uk pk _ _
          (Nat.mod_lt _ hL0) hi h
      · intro h
        rw [h])]
  rw [← List.countP_eq_length_filter]
  rw [List.countP_congr (q := fun k =>
      decide (k ≡ i [MOD (mergeKeywords uk pk).length]))
    (fun x _ => by
      simp only [decide_eq_true_eq, Nat.ModEq, Nat.mod_eq_of_lt hi])]
  have hcount : (List.range N).countP
      (fun k => decide (k ≡ i [MOD (mergeKeywords uk pk).length])) =
      Nat.count (· ≡ i [MOD (mergeKeywords uk pk).length]) N := rfl
  rw [hcount, Nat.count_modEq_card N hL0 i, Nat.mod_eq_of_lt hi]

/-- C7: the keyword rotation merges the two comma-separated keyword lists,
trims entries, drops empties, and deduplicates preserving first-seen order
(the merged list is duplicate-free); on an empty merged list it returns
`null` without touching the cursor; otherwise it persists
`cursor' = (cursor + 1) mod L` and returns the keyword at the new position,
so the n-th session from a fresh cursor returns the keyword at index
`n mod L` — hence over `N` successive sessions each keyword index is visited
exactly `⌊N/L⌋` or `⌈N/L⌉ = (N + L - 1) / L` times, in stable cyclic order
with no keyword skipped within one full cycle. -/
theorem nextKeyword_rotation (uk pk : String) :
    (mergeKeywords uk pk).Nodup ∧
    ((mergeKeywords uk pk).length = 0 →
      ∀ c, getNextKeywordSequentially uk pk c = (none, c, false)) ∧
    ((mergeKeywords uk pk).length ≠ 0 → ∀ n,
      keywordAtCall uk pk n =
        (mergeKeywords uk pk)[n % (mergeKeywords uk pk).length]? ∧
      keywordCursorIter uk pk (n + 1) =
        ((n % (mergeKeywords uk pk).length : ℕ) : Int)) ∧
    ((mergeKeywords uk pk).length ≠ 0 →
      ∀ N i, i < (mergeKeywords uk pk).length →
        visitCount uk pk N i = N / (mergeKeywords uk pk).length ∨
        visitCount uk pk N i =
          (N + (mergeKeywords uk pk).length - 1) /
            (mergeKeywords uk pk).length) := by
  refine ⟨mergeKeywords_nodup uk pk, ?_, ?_, ?_⟩
  · intro h0 c
    rw [getNextKeywordSequentially, if_pos h0]
  · intro hL n
    exact ⟨keywordAtCall_eq uk pk hL n, by
      rw [keywordCursorIter, keywordStep uk pk hL n]⟩
  · intro hL N i hi
    rw [visitCount_formula uk pk hL N i hi]
    by_cases hcase : i < N % (mergeKeywords uk pk).length
    · right
      rw [if_pos hcase]
      rw [ceil_div_of_mod_ne_zero N _ hL (by omega)]
    · left
      rw [if_neg hcase]
      omega

/-- C7 witness: on the concrete keyword settings `"cars, sky"` and
`"sea,cars"` the merged list is the duplicate-free `["cars", "sky", "sea"]`
of length 3, and over 7 sessions the keyword at index 1 is visited
`7 / 3 = 2` times (either disjunct instantiated concretely). -/
theorem nextKeyword_rotation_witness :
    visitCount "cars, sky" "sea,cars" 7 1 = 7 / 3 ∨
    visitCount "cars, sky" "sea,cars" 7 1 = (7 + 3 - 1) / 3 := by
  have hlen : (mergeKeywords "cars, sky" "sea,cars").length = 3 := by decide
  have h := (nextKeyword_rotation "cars, sky" "sea,cars").2.2.2
    (by rw [hlen]; decide) 7 1 (by rw [hlen]; decide)
  rw [hlen] at h
  exact h

/-! Fetch Orchestrator: `fetchAllImages` from `src/api/index.ts`. -/

/-- API key lists per provider (`Settings.apiKeys`). -/
structure ApiKeys where
  unsplash : List String
  pexels : List String
deriving DecidableEq, Repr

/-- Keyword settings per provider (`Settings.searchPreferences`). -/
structure SearchPreferences where
  unsplashKeywords : String
  pexelsKeywords : String
deriving DecidableEq, Repr

/-- Cache settings (`Settings.cache`). -/
structure CacheSettings where
  permanentMode : Bool
deriving DecidableEq, Repr

/-- The slice of the `Settings` record that `fetchAllImages` reads. -/
structure Settings where
  apiKeys : ApiKeys
  searchPreferences : SearchPreferences
  cache : CacheSettings
deriving DecidableEq, Repr

/-- `UNSPLASH_IMAGES_COUNT` from `src/config`. -/
def UNSPLASH_IMAGES_COUNT : ℕ := 30

/-- `PEXELS_IMAGES_COUNT` from `src/config`. -/
def PEXELS_IMAGES_COUNT : ℕ := 80

/-- `expectedTotalImages` as computed in `fetchAllImages`. -/
def expectedTotalImages (s : Settings) : ℕ :=
  s.apiKeys.unsplash.length * UNSPLASH_IMAGES_COUNT +
    s.apiKeys.pexels.length * PEXELS_IMAGES_COUNT

/-- Observable outcome of one `fetchAllImages` call: the returned list, the
rotation-cursor value afterwards, whether `saveLastKeywordIndex` ran, the
session keyword, how many provider requests were launched, and whether the
low-success-rate warning was logged. -/
structure FetchAllResult where
  images : List ImageData
  cursor : Int
  cursorSaved : Bool
  selectedKeyword : Option String
  providerRequests : ℕ
  lowSuccessWarning : Bool
deriving DecidableEq, Repr

/-- Embedding of `fetchAllImages` (`src/api/index.ts`).  `online` models
`navigator.onLine`; `fetchU key kw` / `fetchP key kw` are the per-credential
provider results (`fetchUnsplashImages` / `fetchPexelsImages` catch their own
errors and resolve to `[]`, so they are total functions); `cursor` is the
persisted `lastKeywordIndex`.  The session keyword is drawn — and the cursor
persisted — before the `promises.length === 0` check.  The success-rate
comparison `allImages.length < expectedTotalImages * 0.8` is carried out in
exact rational arithmetic. -/
def fetchAllImages (s : Settings) (online : Bool) (cursor : Int)
    (fetchU fetchP : String → Option String → List ImageData) :
    FetchAllResult :=
  if !online then
    { images := [], cursor := cursor, cursorSaved := false,
      selectedKeyword := none, providerRequests := 0,
      lowSuccessWarning := false }
  else
    let step := getNextKeywordSequentially
      s.searchPreferences.unsplashKeywords
      s.searchPreferences.pexelsKeywords cursor
    if s.apiKeys.unsplash.length + s.apiKeys.pexels.length = 0 then
      { images := [], cursor := step.2.1, cursorSaved := step.2.2,
        selectedKeyword := step.1, providerRequests := 0,
        lowSuccessWarning := false }
    else
      let results := s.apiKeys.unsplash.map (fun key => fetchU key step.1) ++
        s.apiKeys.pexels.map (fun key => fetchP key step.1)
      let allImages := results.flatten
      { images := allImages, cursor := step.2.1, cursorSaved := step.2.2,
        selectedKeyword := step.1,
        providerRequests :=
          s.apiKeys.unsplash.length + s.apiKeys.pexels.length,
        lowSuccessWarning :=
          decide ((allImages.length : ℚ) <
            (expectedTotalImages s : ℚ) * (4 / 5)) }

theorem ratio_lt_iff (a e : ℕ) :
    ((a : ℚ) < (e : ℚ) * (4 / 5)) ↔ 5 * a < 4 * e := by
  rw [mul_div_assoc', lt_div_iff₀ (by norm_num : (0 : ℚ) < 5)]
  constructor
  · intro h
    have : ((5 * a : ℕ) : ℚ) < ((4 * e : ℕ) : ℚ) := by push_cast; linarith
    exact_mod_cast this
  · intro h
    have : ((5 * a : ℕ) : ℚ) < ((4 * e : ℕ) : ℚ) := by exact_mod_cast h
    push_cast at this
    linarith

/-- C9: `fetchAllImages` always returns the flattened union of the provider
results — a low success rate or an empty union never becomes an error — and
the soft warning is emitted if and only if the actual count is strictly below
80% of the expected count (`5 * actual < 4 * expected`); in particular at
exactly 80% no warning is emitted. -/
theorem fetchAllImages_successRatio (s : Settings) (cursor : Int)
    (fetchU fetchP : String → Option String → List ImageData)
    (hkeys : s.apiKeys.unsplash.length + s.apiKeys.pexels.length ≠ 0) :
    (fetchAllImages s true cursor fetchU fetchP).images =
      (s.apiKeys.unsplash.map (fun key => fetchU key
          (getNextKeywordSequentially s.searchPreferences.unsplashKeywords
            s.searchPreferences.pexelsKeywords cursor).1) ++
        s.apiKeys.pexels.map (fun key => fetchP key
          (getNextKeywordSequentially s.searchPreferences.unsplashKeywords
            s.searchPreferences.pexelsKeywords cursor).1)).flatten ∧
    ((fetchAllImages s true cursor fetchU fetchP).lowSuccessWarning = true ↔
      5 * (fetchAllImages s true cursor fetchU fetchP).images.length <
        4 * expectedTotalImages s) ∧
    (5 * (fetchAllImages s true cursor fetchU fetchP).images.length =
        4 * expectedTotalImages s →
      (fetchAllImages s true cursor fetchU fetchP).lowSuccessWarning =
        false) := by
  refine ⟨?_, ?_, ?_⟩
  · simp only [fetchAllImages, Bool.not_true, Bool.false_eq_true, if_false,
      if_neg hkeys]
  · simp only [fetchAllImages, Bool.not_true, Bool.false_eq_true, if_false,
      if_neg hkeys]
    rw [decide_eq_true_iff]
    exact ratio_lt_iff _ _
  · intro heq
    simp only [fetchAllImages, Bool.not_true, Bool.false_eq_true, if_false,
      if_neg hkeys] at heq ⊢
    rw [decide_eq_false_iff_not, ratio_lt_iff]
    omega

/-- C10: with zero API keys but a non-empty merged keyword list, incoming
while online, `fetchAllImages` still draws the session keyword — advancing
and persisting the rotation cursor to `(cursor + 1) mod L` — before the
credentials check, launches no provider request, and returns the empty
list: `[]` is not a state-free outcome. -/
theorem fetchAllImages_advancesCursor (s : Settings) (cursor : Int)
    (fetchU fetchP : String → Option String → List ImageData)
    (hu : s.apiKeys.unsplash = []) (hp : s.apiKeys.pexels = [])
    (hkw : (mergeKeywords s.searchPreferences.unsplashKeywords
      s.searchPreferences.pexelsKeywords).length ≠ 0) :
    (fetchAllImages s true cursor fetchU fetchP).images = [] ∧
    (fetchAllImages s true cursor fetchU fetchP).providerRequests = 0 ∧
    (fetchAllImages s true cursor fetchU fetchP).cursorSaved = true ∧
    (fetchAllImages s true cursor fetchU fetchP).cursor =
      (cursor + 1) % ((mergeKeywords s.searchPreferences.unsplashKeywords
        s.searchPreferences.pexelsKeywords).length : Int) := by
  have hstep : getNextKeywordSequentially
      s.searchPreferences.unsplashKeywords
      s.searchPreferences.pexelsKeywords cursor =
      ((mergeKeywords s.searchPreferences.unsplashKeywords
          s.searchPreferences.pexelsKeywords)[((cursor + 1) %
        ((mergeKeywords s.searchPreferences.unsplashKeywords
          s.searchPreferences.pexelsKeywords).length : Int)).toNat]?,
        (cursor + 1) % ((mergeKeywords s.searchPreferences.unsplashKeywords
          s.searchPreferences.pexelsKeywords).length : Int), true) := by
    rw [getNextKeywordSequentially, if_neg hkw]
  rw [fetchAllImages]
  simp only [Bool.not_true, Bool.false_eq_true, if_false, hu, hp,
    List.length_nil, Nat.add_zero, if_pos rfl, hstep]
  exact ⟨rfl, rfl, rfl, rfl⟩

/-- Settings used by the C10 witness: no API keys, non-empty keywords. -/
def sampleSettingsNoKeys : Settings :=
  { apiKeys := { unsplash := [], pexels := [] },
    searchPreferences :=
      { unsplashKeywords := "cars, sky", pexelsKeywords := "sea,cars" },
    cache := { permanentMode := false } }

/-- C10 witness: the theorem instantiated at the concrete no-keys settings
with cursor 0 — the call returns `[]`, launches no request, and persists
cursor `(0 + 1) mod 3`. -/
theorem fetchAllImages_advancesCursor_witness :
    (fetchAllImages sampleSettingsNoKeys true 0
      (fun _ _ => []) (fun _ _ => [])).images = [] ∧
    (fetchAllImages sampleSettingsNoKeys true 0
      (fun _ _ => []) (fun _ _ => [])).providerRequests = 0 ∧
    (fetchAllImages sampleSettingsNoKeys true 0
      (fun _ _ => []) (fun _ _ => [])).cursorSaved = true ∧
    (fetchAllImages sampleSettingsNoKeys true 0
      (fun _ _ => []) (fun _ _ => [])).cursor =
      (0 + 1) % ((mergeKeywords
        sampleSettingsNoKeys.searchPreferences.unsplashKeywords
        sampleSettingsNoKeys.searchPreferences.pexelsKeywords).length : Int) :=
  fetchAllImages_advancesCursor sampleSettingsNoKeys 0 _ _ rfl rfl (by decide)

/-- Settings used by the C9 witness: a single Unsplash key. -/
def sampleSettingsOneKey : Settings :=
  { apiKeys := { unsplash := ["key1"], pexels := [] },
    searchPreferences :=
      { unsplashKeywords := "cars", pexelsKeywords := "" },
    cache := { permanentMode := false } }

/-- A provider batch of `n` distinct successful downloads. -/
def sampleBatch (n : ℕ) : List ImageData :=
  (List.range n).map (fun j => { imgAtTen with payload := j })

/-- C9 witness: one Unsplash key (expected 30) with 24 downloads succeeding
is exactly an 80% success rate, and no warning is emitted. -/
theorem fetchAllImages_successRatio_witness :
    (fetchAllImages sampleSettingsOneKey true 0
      (fun _ _ => sampleBatch 24) (fun _ _ => [])).lowSuccessWarning =
      false :=
  (fetchAllImages_successRatio sampleSettingsOneKey 0
    (fun _ _ => sampleBatch 24) (fun _ _ => []) (by decide)).2.2 (by decide)

/-! Fallback chain and Refresh Controller: `getImageSourceStrategy`,
`getImagesWithFallback`, the legacy `getFallbackImages` (the unnamed
`content/fallback` module, `src/unnamed/part_000`), the current
`getFallbackImages` (`src/fallback/index.ts`), and `refreshImages`
(`src/background.ts`). -/

/-- Environment of one refresh cycle: connectivity, credential and
rate-limit state, the valid cached items after housekeeping, what the
orchestrated fetch resolves with (it catches its own errors and never
rejects), the per-URL outcomes of downloading the static `FALLBACK_IMAGES`
bundle, and the generated placeholder item. -/
structure RefreshEnv where
  online : Bool
  hasApiKeys : Bool
  rateLimited : Bool
  validCache : List ImageData
  apiFetchResult : List ImageData
  bundleDownloads : List (Option ImageData)
  placeholder : ImageData
deriving DecidableEq, Repr

/-- The four image-source strategies. -/
inductive Strategy
  | cached
  | api
  | fallback
  | placeholder
deriving DecidableEq, Repr

/-- Embedding of `shouldUseFallbackImages`: no credentials or rate limit. -/
def shouldUseFallbackImages (env : RefreshEnv) : Bool :=
  !env.hasApiKeys || env.rateLimited

/-- Embedding of `getImageSourceStrategy` (`src/unnamed/part_000`): cached
items first, then offline placeholder, then API only when explicitly
allowed, else the fallback URLs. -/
def getImageSourceStrategy (allowApiCalls : Bool) (env : RefreshEnv) :
    Strategy :=
  if 0 < env.validCache.length then .cached
  else if !env.online then .placeholder
  else if allowApiCalls && !(shouldUseFallbackImages env) then .api
  else .fallback

/-- Embedding of the legacy `getFallbackImages` (`src/unnamed/part_000`):
offline returns the generated placeholder; otherwise the static bundle URLs
are downloaded and the successful subset returned, falling back to the
placeholder when every download failed. -/
def getFallbackImagesLegacy (env : RefreshEnv) : List ImageData :=
  if !env.online then [env.placeholder]
  else
    let valid := env.bundleDownloads.filterMap id
    if valid.length = 0 then [env.placeholder] else valid

/-- The `case 'placeholder'` arm of the `getImagesWithFallback` switch. -/
def placeholderStep (env : RefreshEnv) : List ImageData :=
  [env.placeholder]

/-- The `case 'fallback'` arm, falling through to the placeholder arm. -/
def fallbackStep (env : RefreshEnv) : List ImageData :=
  let fb := getFallbackImagesLegacy env
  if 0 < fb.length then fb else placeholderStep env

/-- The `case 'api'` arm, falling through to the fallback arm. -/
def apiStep (allowApiCalls : Bool) (env : RefreshEnv) : List ImageData :=
  if allowApiCalls && 0 < env.apiFetchResult.length then env.apiFetchResult
  else fallbackStep env

/-- The `case 'cached'` arm, falling through to the api arm. -/
def cachedStep (allowApiCalls : Bool) (env : RefreshEnv) : List ImageData :=
  if 0 < env.validCache.length then env.validCache
  else apiStep allowApiCalls env

/-- Embedding of `getImagesWithFallback` (`src/unnamed/part_000`): dispatch
on the computed strategy into the intentional fallthrough cascade
cached → api → fallback → placeholder. -/
def getImagesWithFallback (allowApiCalls : Bool) (env : RefreshEnv) :
    List ImageData :=
  match getImageSourceStrategy allowApiCalls env with
  | .cached => cachedStep allowApiCalls env
  | .api => apiStep allowApiCalls env
  | .fallback => fallbackStep env
  | .placeholder => placeholderStep env

/-- Embedding of the current `getFallbackImages` (`src/fallback/index.ts`):
it returns `[]` when offline and `[]` again when every bundled download
failed — no placeholder is generated in this module. -/
def getFallbackImagesCurrent (online : Bool)
    (bundleDownloads : List (Option ImageData)) : List ImageData :=
  if !online then []
  else
    let valid := bundleDownloads.filterMap id
    if valid.length = 0 then [] else valid

/-- The `storeImages` Put path: an idempotent upsert by `id`, one batch. -/
def storeImagesModel (store newImages : List ImageData) : List ImageData :=
  newImages.foldl
    (fun st img =>
      if st.any (fun o => o.id == img.id) then
        st.map (fun o => if o.id == img.id then img else o)
      else st ++ [img])
    store

/-- Observable outcome of one `refreshImages` cycle. -/
structure RefreshOutcome where
  images : List ImageData
  storedViaPut : Option (List ImageData)
  finalCache : List ImageData
  softFailureLogged : Bool
deriving DecidableEq, Repr

/-- Embedding of `refreshImages` (`src/background.ts`) from the
strategy-selection step on (the housekeeping steps have already produced
`env.validCache`).  `getImageSourceStrategy()` is invoked with its default
`allowApiCalls = false`; the placeholder and fallback strategies route
through `getImagesWithFallback(true)`, the remaining strategies call
`fetchAllImages()` directly — which resolves with a list and never rejects,
so the emergency catch path is unreachable on a clean zero-item fetch.  A
non-empty acquisition is stored through the `storeImages` Put path and
counted as success; an empty one leaves the cache untouched and logs a soft
failure. -/
def refreshImagesBody (env : RefreshEnv) : RefreshOutcome :=
  let strategy := getImageSourceStrategy false env
  let images :=
    if strategy = .placeholder ∨ strategy = .fallback then
      getImagesWithFallback true env
    else env.apiFetchResult
  if 0 < images.length then
    { images := images, storedViaPut := some images,
      finalCache := storeImagesModel env.validCache images,
      softFailureLogged := false }
  else
    { images := images, storedViaPut := none,
      finalCache := env.validCache, softFailureLogged := true }

theorem placeholderStep_ne_nil (env : RefreshEnv) :
    placeholderStep env ≠ [] := by
  simp [placeholderStep]

theorem fallbackStep_ne_nil (env : RefreshEnv) : fallbackStep env ≠ [] := by
  rw [fallbackStep]
  by_cases h : 0 < (getFallbackImagesLegacy env).length
  · simpa [h] using List.length_pos.mp h
  · simpa [h] using placeholderStep_ne_nil env

theorem apiStep_ne_nil (allowApiCalls : Bool) (env : RefreshEnv) :
    apiStep allowApiCalls env ≠ [] := by
  rw [apiStep]
  by_cases h : allowApiCalls && decide (0 < env.apiFetchResult.length)
  · have h' := h
    simp only [Bool.and_eq_true, decide_eq_true_eq] at h'
    simpa [h] using List.length_pos.mp h'.2
  · simpa [h] using fallbackStep_ne_nil env

theorem getImagesWithFallback_ne_nil (allowApiCalls : Bool)
    (env : RefreshEnv) : getImagesWithFallback allowApiCalls env ≠ [] := by
  rw [getImagesWithFallback]
  cases getImageSourceStrategy allowApiCalls env with
  | cached =>
    rw [cachedStep]
    by_cases h : 0 < env.validCache.length
    · simpa [h] using List.length_pos.mp h
    · simpa [h] using apiStep_ne_nil allowApiCalls env
  | api => exact apiStep_ne_nil allowApiCalls env
  | fallback => exact fallbackStep_ne_nil env
  | placeholder => exact placeholderStep_ne_nil env

/-- C4: the current fallback module returns the empty list both when offline
and when every bundled URL download fails — contradicting its own
documentation ("always returns at least one fallback image", "generate
placeholder directly") and the never-nothing contract; only the legacy
`getImagesWithFallback` chain satisfies the guarantee. -/
theorem getFallbackImagesCurrent_empty_eval :
    getFallbackImagesCurrent false [some imgAtTen] = [] ∧
    getFallbackImagesCurrent true [none, none] = [] :=
  ⟨rfl, rfl⟩

theorem strategy_false_of_empty_cache (env : RefreshEnv)
    (hon : env.online = true) (hvc : env.validCache = []) :
    getImageSourceStrategy false env = .fallback := by
  simp [getImageSourceStrategy, hvc, hon]

/-- C2: in the refresh cycle with the orchestrated fetch resolving with 0
items, (1) when the store holds no valid items the static bundled fallback
set is downloaded and handed to the same `storeImages` Put path (provided at
least one bundle URL downloads; otherwise the generated placeholder is
stored instead), with no soft failure; (2) when the store is non-empty the
cache is left untouched and only a soft failure is logged. -/
theorem refresh_zeroFetch_fallback (env : RefreshEnv)
    (hon : env.online = true) (hfetch : env.apiFetchResult = []) :
    (env.validCache = [] → env.bundleDownloads.filterMap id ≠ [] →
      (refreshImagesBody env).storedViaPut =
        some (env.bundleDownloads.filterMap id) ∧
      (refreshImagesBody env).softFailureLogged = false) ∧
    (env.validCache ≠ [] →
      (refreshImagesBody env).storedViaPut = none ∧
      (refreshImagesBody env).finalCache = env.validCache ∧
      (refreshImagesBody env).softFailureLogged = true) := by
  constructor
  · intro hvc hbundle
    have hblen : (env.bundleDownloads.filterMap id).length ≠ 0 :=
      fun h => hbundle (List.length_eq_zero.mp h)
    have hfb : fallbackStep env = env.bundleDownloads.filterMap id := by
      rw [fallbackStep, getFallbackImagesLegacy]
      simp [hon, hblen, Nat.pos_of_ne_zero hblen]
    have hapi : apiStep true env = env.bundleDownloads.filterMap id := by
      rw [apiStep]
      simp [hfetch, hfb]
    have hwf : getImagesWithFallback true env =
        env.bundleDownloads.filterMap id := by
      rw [getImagesWithFallback]
      cases hS : getImageSourceStrategy true env with
      | cached =>
        rw [getImageSourceStrategy] at hS
        simp only [hvc, List.length_nil, Nat.lt_irrefl, if_false, hon,
          Bool.not_true, Bool.false_eq_true] at hS
        split at hS
        · exact Strategy.noConfusion hS
        · exact Strategy.noConfusion hS
      | api => exact hapi
      | fallback => exact hfb
      | placeholder =>
        rw [getImageSourceStrategy] at hS
        simp only [hvc, List.length_nil, Nat.lt_irrefl, if_false, hon,
          Bool.not_true, Bool.false_eq_true] at hS
        split at hS
        · exact Strategy.noConfusion hS
        · exact Strategy.noConfusion hS
    rw [refreshImagesBody]
    simp only [strategy_false_of_empty_cache env hon hvc]
    simp [hwf, Nat.pos_of_ne_zero hblen]
  · intro hvc
    have hpos : 0 < env.validCache.length := List.length_pos.mpr hvc
    have hstrat : getImageSourceStrategy false env = .cached := by
      simp [getImageSourceStrategy, hpos]
    rw [refreshImagesBody]
    simp [hstrat, hfetch]

/-- Concrete refresh environment for the C2 witness: online, credentials
configured, empty cache, fetch resolves empty, one bundle URL succeeds. -/
def sampleRefreshEnv : RefreshEnv :=
  { online := true, hasApiKeys := true, rateLimited := false,
    validCache := [], apiFetchResult := [],
    bundleDownloads := [some imgAtTen, none], placeholder := imgAtFive }

/-- C2 witness: on `sampleRefreshEnv` the successfully downloaded bundle
subset `[imgAtTen]` is stored through the Put path with no soft failure. -/
theorem refresh_zeroFetch_fallback_witness :
    (refreshImagesBody sampleRefreshEnv).storedViaPut =
      some (sampleRefreshEnv.bundleDownloads.filterMap id) ∧
    (refreshImagesBody sampleRefreshEnv).softFailureLogged = false :=
  (refresh_zeroFetch_fallback sampleRefreshEnv rfl rfl).1 rfl (by decide)

end WallpaperExt
